import Mathlib

/-!
# Eureka registry adapter (`eureka/eureka.go`)

A shallow embedding of the adapter that registers, refreshes and deregisters
services against a Eureka-compatible registry, together with the properties
stated about it.

Modelling conventions
* A Go `string` is a `GoString`, a list of characters.  Every separator the
  code looks for (`:` and `|`) is a single ASCII byte, so scanning by
  characters and scanning by bytes agree.
* Go `int` values are `Int`; the code does no arithmetic on them.
* A Go `error` result is an `Option`: `none` is `nil`.
* The HTTP library is a parameter (`HTTP`): how `http.NewRequest` validates a
  method and URL, and what `client.Do` answers, threaded through an explicit
  world state.
-/

set_option autoImplicit false

namespace Eureka

/-- A Go string. -/
abbrev GoString := List Char

/-! ## The `strings` functions used by `convertService` -/

namespace strings

/-- The position of the first occurrence of `sep` in a string, as
`strings.Index`; `none` stands for Go's `-1`. -/
def Index (sep : GoString) : GoString → Option Nat
  | [] => if sep = [] then some 0 else none
  | c :: cs =>
    if sep.isPrefixOf (c :: cs) then some 0 else (Index sep cs).map (· + 1)

/-- The loop of `strings.Replace` for an empty `old`: `new` is inserted before
each character and after the last one, at most `n` times. -/
def replaceEmpty (new : GoString) : GoString → Nat → GoString
  | s, 0 => s
  | [], _ + 1 => new
  | c :: cs, n + 1 => new ++ c :: replaceEmpty new cs n

/-- The loop of `strings.Replace` for a non-empty `old`, scanning left to
right.  `skip` counts the characters of a matched occurrence still to be
dropped, `n` the replacements still allowed. -/
def replaceLoop (old new : GoString) : GoString → Nat → Nat → GoString
  | [], _, _ => []
  | _ :: cs, skip + 1, n => replaceLoop old new cs skip n
  | c :: cs, 0, 0 => c :: cs
  | c :: cs, 0, n + 1 =>
    if old.isPrefixOf (c :: cs) then new ++ replaceLoop old new cs (old.length - 1) n
    else c :: replaceLoop old new cs 0 (n + 1)

/-- The function `strings.Replace(s, old, new, n)`: the first `n`
non-overlapping occurrences of `old` replaced by `new`, all of them when
`n < 0`. -/
def Replace (s old new : GoString) (n : Int) : GoString :=
  if old = new ∨ n = 0 then s
  else
    let budget := if n < 0 then s.length + 1 else n.toNat
    if old = [] then replaceEmpty new s budget else replaceLoop old new s 0 budget

/-- The loop of `explode`: one string per character, the last of the `n`
strings holding the remainder. -/
def explodeLoop : GoString → Nat → List GoString
  | _, 0 => []
  | s, 1 => [s]
  | [], _ + 2 => [[]]
  | c :: cs, n + 2 => [c] :: explodeLoop cs (n + 1)

/-- The helper `explode(s, n)` of package `strings`. -/
def explode (s : GoString) (n : Int) : List GoString :=
  explodeLoop s (if n < 0 ∨ n > s.length then s.length else n.toNat)

/-- The loop of `genSplit`: cut at the first separator until `n` pieces have
been produced or no separator is left. -/
def splitLoop (sep : GoString) : GoString → Nat → List GoString
  | _, 0 => []
  | s, 1 => [s]
  | s, n + 2 =>
    match Index sep s with
    | none => [s]
    | some m => s.take m :: splitLoop sep (s.drop (m + sep.length)) (n + 1)

/-- The function `strings.SplitN(s, sep, n)`: at most `n` pieces (`n < 0`: all
of them), the last one the unsplit remainder. -/
def SplitN (s sep : GoString) (n : Int) : List GoString :=
  if n = 0 then []
  else if sep = [] then explode s n
  else splitLoop sep s (if n < 0 then s.length + 1 else n.toNat)

end strings


/-! ## Data model -/

/-- Modelled from the spec: the record type `bridge.Service` of the host
framework, declared outside this file; the fields are those the adapter
reads (id, name, port, IP address and the ordered tags). -/
structure Service where
  ID : GoString
  Name : GoString
  Port : Int
  IP : GoString
  Tags : List GoString
  deriving DecidableEq, Repr

/-- The type `metadata`, a Go `map[string]string`: a finite map kept as a list
of entries with pairwise different keys, whose order carries no meaning. -/
abbrev metadata := List (GoString × GoString)

/-- The map update `md[key] = value`. -/
def metadata.set (md : metadata) (key value : GoString) : metadata :=
  (key, value) :: md.filter (fun e => e.1 ≠ key)

/-- The map lookup `md[key]` with its presence flag. -/
def metadata.get (md : metadata) (key : GoString) : Option GoString :=
  md.lookup key

/-- The type `port`. -/
structure port where
  Port : Int
  Enabled : Bool
  deriving DecidableEq, Repr

/-- The type `instance`, the registry's wire record (`instance` is a keyword
of Lean, hence the capital). -/
structure Instance where
  ID : GoString
  Hostname : GoString
  App : GoString
  IPAddress : GoString
  Port : port
  SecurePort : port
  Metadata : metadata
  deriving DecidableEq, Repr

/-! ## The instance mapper -/

/-- The body of the loop over the tags in `convertService`. -/
def convertService.tag (md : metadata) (tag : GoString) : metadata :=
  let parts := strings.SplitN tag "|".toList 2
  let key := parts.headD []
  let value := if parts.length > 1 then parts.getD 1 [] else []
  md.set key value

/-- The function `convertService`. -/
def convertService (service : Service) : Instance :=
  let id := strings.Replace service.ID ":".toList "-".toList (-1)
  let md : metadata := []
  let md := md.set "istio.protocol".toList "http".toList
  let md := service.Tags.foldl convertService.tag md
  { ID := id
    Hostname := service.Name
    App := service.Name
    IPAddress := service.IP
    Port := { Port := service.Port, Enabled := true }
    SecurePort := { Port := 0, Enabled := false }
    Metadata := md }

/-! ## JSON encoding of the register payload -/

/-- A JSON value.  The members of an object are listed in the order in which
they are written. -/
inductive JSON where
  | null : JSON
  | bool (b : Bool) : JSON
  | number (n : Int) : JSON
  | string (s : GoString) : JSON
  | array (items : List JSON) : JSON
  | object (members : List (GoString × JSON)) : JSON

/-- The value of the member named `key` of a JSON object. -/
def JSON.member (key : GoString) : JSON → Option JSON
  | .object members => members.lookup key
  | _ => none

/-- The names of the members of a JSON object. -/
def JSON.keys : JSON → List GoString
  | .object members => members.map Prod.fst
  | _ => []

namespace json

/-- Decimal rendering of an integer, as the encoder writes it
(`strconv.AppendInt` in base 10). -/
def formatInt (i : Int) : GoString :=
  if i < 0 then '-' :: Nat.toDigits 10 i.natAbs else Nat.toDigits 10 i.toNat

/-- Rendering of a boolean, as the encoder writes it. -/
def formatBool (b : Bool) : GoString :=
  if b then "true".toList else "false".toList

/-- Encoding of a `port`: both fields carry the `string` option, so each is
written as a JSON string holding the text of the value. -/
def marshalPort (p : port) : JSON :=
  .object [("$".toList, .string (formatInt p.Port)),
           ("@enabled".toList, .string (formatBool p.Enabled))]

/-- Encoding of a `metadata` map: an object whose members are the entries,
written in increasing order of their keys. -/
def marshalMetadata (md : metadata) : JSON :=
  .object ((md.insertionSort (fun a b => a.1 ≤ b.1)).map (fun e => (e.1, JSON.string e.2)))

/-- Encoding of an `instance` under its field tags.  `omitempty` drops an empty
string and an empty map and never drops a struct, so `port` and `securePort`
are always written. -/
def marshalInstance (inst : Instance) : JSON :=
  .object (
    (if inst.ID = [] then [] else [("instanceId".toList, JSON.string inst.ID)]) ++
    [("hostName".toList, .string inst.Hostname),
     ("app".toList, .string inst.App),
     ("ipAddr".toList, .string inst.IPAddress),
     ("port".toList, marshalPort inst.Port),
     ("securePort".toList, marshalPort inst.SecurePort)] ++
    (if inst.Metadata = [] then [] else [("metadata".toList, marshalMetadata inst.Metadata)]))

/-- Encoding of the anonymous payload struct of `client.register`, whose only
field is tagged `instance`.  `json.Marshal` cannot fail on these types. -/
def Marshal (inst : Instance) : JSON :=
  .object [("instance".toList, marshalInstance inst)]

end json

/-! ## The HTTP library -/

namespace http

def MethodPost : GoString := "POST".toList
def MethodPut : GoString := "PUT".toList
def MethodDelete : GoString := "DELETE".toList

def StatusOK : Int := 200
def StatusNoContent : Int := 204

/-- The part of `http.Client` the adapter sets: the request timeout, in
nanoseconds. -/
structure Client where
  Timeout : Nat
  deriving DecidableEq, Repr

/-- The part of `http.Request` the adapter fills in.  `URL` is the URL string
the request was created from, the argument of `http.NewRequest`; parsing it
and encoding it on the wire is the library's work, inside `client.Do`. -/
structure Request where
  Method : GoString
  URL : GoString
  Header : List (GoString × GoString)
  Body : Option JSON

/-- The part of `http.Response` the adapter reads. -/
structure Response where
  StatusCode : Int
  Status : GoString
  deriving DecidableEq, Repr

/-- The characters allowed in a header field name (`validHeaderFieldByte` of
package `net/textproto`): letters, digits and the punctuation of an RFC 7230
token, among them the apostrophe (code 39) and the grave accent (code 96). -/
def validHeaderFieldByte (c : Char) : Bool :=
  c.isAlphanum || "!#$%&*+-.^_|~".toList.contains c || c.toNat == 39 || c.toNat == 96

/-- The rewriting loop of `canonicalMIMEHeaderKey`: the first letter and every
letter after a `-` in upper case, the other letters in lower case. -/
def canonicalLoop : Bool → GoString → GoString
  | _, [] => []
  | upper, c :: cs =>
    let c :=
      if upper && c.isLower then c.toUpper
      else if !upper && c.isUpper then c.toLower
      else c
    c :: canonicalLoop (c == '-') cs

/-- The function `textproto.CanonicalMIMEHeaderKey`: a key holding a character
that is not allowed in a field name is returned unchanged. -/
def CanonicalMIMEHeaderKey (s : GoString) : GoString :=
  if s.all validHeaderFieldByte then canonicalLoop true s else s

/-- The call `req.Header.Set(key, value)`, which files the value under the
canonical form of the key. -/
def Request.setHeader (req : Request) (key value : GoString) : Request :=
  { req with
    Header := (CanonicalMIMEHeaderKey key, value) ::
      req.Header.filter (fun e => e.1 ≠ CanonicalMIMEHeaderKey key) }

end http

/-- The behaviour of package `net/http` as the adapter sees it, over a world
state `σ` and a type `ε` of library errors.  `reject method url` is the error
with which `http.NewRequest` refuses a method or URL (`none`: accepted), and
`Do` is `client.Do`, which answers with an error or a response. -/
structure HTTP (σ ε : Type) where
  reject : GoString → GoString → Option ε
  Do : http.Request → σ → Except ε http.Response × σ

/-- The function `http.NewRequest`. -/
def HTTP.NewRequest {σ ε : Type} (h : HTTP σ ε) (method url : GoString) (body : Option JSON) :
    Except ε http.Request :=
  match h.reject method url with
  | some e => .error e
  | none => .ok { Method := method, URL := url, Header := [], Body := body }

/-- A Go `error` value returned by the adapter: an error handed over by the
HTTP library, or one built by `fmt.Errorf` with the given message. -/
inductive GoError (ε : Type) where
  | lib (e : ε) : GoError ε
  | errorf (msg : GoString) : GoError ε
  deriving DecidableEq, Repr

/-- The message of an error built by `fmt.Errorf`. -/
def GoError.message {ε : Type} : GoError ε → Option GoString
  | .lib _ => none
  | .errorf msg => some msg

/-! ## The registry wire client -/

/-- The constant `defaultTimeout`, thirty seconds in nanoseconds. -/
def defaultTimeout : Nat := 30 * 1000000000

/-- The type `client`; its field `client` is named `httpClient` here. -/
structure client where
  httpClient : http.Client
  url : GoString
  deriving DecidableEq, Repr

/-- The function `newClient`. -/
def newClient (url : GoString) (cli : http.Client) : client :=
  { httpClient := cli, url := url }

/-- The method `client.buildRegisterPath`: `appPath` filled in by
`fmt.Sprintf`. -/
def client.buildRegisterPath (a : client) (app : GoString) : GoString :=
  a.url ++ "/eureka/v2/apps/".toList ++ app

/-- The method `client.buildInstancePath`: `instancePath` filled in by
`fmt.Sprintf`. -/
def client.buildInstancePath (a : client) (app id : GoString) : GoString :=
  a.url ++ "/eureka/v2/apps/".toList ++ app ++ "/".toList ++ id

/-- The method `client.register`. -/
def client.register {σ ε : Type} (h : HTTP σ ε) (a : client) (inst : Instance) (w : σ) :
    Option (GoError ε) × σ :=
  let data := json.Marshal inst
  match h.NewRequest http.MethodPost (a.buildRegisterPath inst.App) (some data) with
  | .error err => (some (.lib err), w)
  | .ok req =>
    let req := req.setHeader "Content-type".toList "application/json".toList
    match h.Do req w with
    | (.error err, w) => (some (.lib err), w)
    | (.ok resp, w) =>
      if resp.StatusCode ≠ http.StatusNoContent then
        (some (.errorf ("unexpected status code ".toList ++ resp.Status)), w)
      else (none, w)

/-- The method `client.heartbeat`. -/
def client.heartbeat {σ ε : Type} (h : HTTP σ ε) (a : client) (app id : GoString) (w : σ) :
    Option (GoError ε) × σ :=
  match h.NewRequest http.MethodPut (a.buildInstancePath app id) none with
  | .error err => (some (.lib err), w)
  | .ok req =>
    match h.Do req w with
    | (.error err, w) => (some (.lib err), w)
    | (.ok resp, w) =>
      if resp.StatusCode ≠ http.StatusOK then
        (some (.errorf ("unexpected status code ".toList ++ resp.Status)), w)
      else (none, w)

/-- The method `client.deregister`. -/
def client.deregister {σ ε : Type} (h : HTTP σ ε) (a : client) (app id : GoString) (w : σ) :
    Option (GoError ε) × σ :=
  match h.NewRequest http.MethodDelete (a.buildInstancePath app id) none with
  | .error err => (some (.lib err), w)
  | .ok req =>
    match h.Do req w with
    | (.error err, w) => (some (.lib err), w)
    | (.ok resp, w) =>
      if resp.StatusCode ≠ http.StatusOK then
        (some (.errorf ("failed to unregister ".toList ++ id ++ ", got ".toList ++ resp.Status)), w)
      else (none, w)

/-! ## The adapter -/

/-- The type `eureka`. -/
structure eureka where
  client : client
  deriving DecidableEq, Repr

/-- The method `eureka.Ping`. -/
def eureka.Ping {ε : Type} (_e : eureka) : Option (GoError ε) := none

/-- The method `eureka.Register`. -/
def eureka.Register {σ ε : Type} (h : HTTP σ ε) (e : eureka) (service : Service) (w : σ) :
    Option (GoError ε) × σ :=
  e.client.register h (convertService service) w

/-- The method `eureka.Deregister`. -/
def eureka.Deregister {σ ε : Type} (h : HTTP σ ε) (e : eureka) (service : Service) (w : σ) :
    Option (GoError ε) × σ :=
  let inst := convertService service
  e.client.deregister h inst.App inst.ID w

/-- The method `eureka.Refresh`. -/
def eureka.Refresh {σ ε : Type} (h : HTTP σ ε) (e : eureka) (service : Service) (w : σ) :
    Option (GoError ε) × σ :=
  let inst := convertService service
  e.client.heartbeat h inst.App inst.ID w

/-- The method `eureka.Services`. -/
def eureka.Services {ε : Type} (_e : eureka) : List Service × Option (GoError ε) := ([], none)

/-! ## Construction from a connection URI -/

def eurekaScheme : GoString := "eureka".toList
def eurekaTLSScheme : GoString := "eureka-tls".toList

namespace url

/-- The type `url.Userinfo`. -/
structure Userinfo where
  username : GoString
  password : GoString
  passwordSet : Bool
  deriving DecidableEq, Repr

/-- The type `url.URL` of the standard library, field by field. -/
structure URL where
  Scheme : GoString
  Opaque : GoString
  User : Option Userinfo
  Host : GoString
  Path : GoString
  RawPath : GoString
  OmitHost : Bool
  ForceQuery : Bool
  RawQuery : GoString
  Fragment : GoString
  RawFragment : GoString
  deriving DecidableEq, Repr

end url

/-- The method `factory.New`.  The argument `uri` is the value the caller's
pointer refers to, and the second component of the result is that value once
the call has returned; `render` is the library method `(*url.URL).String`. -/
def factory.New (render : url.URL → GoString) (uri : url.URL) : eureka × url.URL :=
  let u := uri
  let u :=
    if u.Scheme = eurekaScheme then { u with Scheme := "http".toList }
    else if u.Scheme = eurekaTLSScheme then { u with Scheme := "https".toList }
    else u
  ({ client := newClient (render u) { Timeout := defaultTimeout } }, uri)

/-- A recording HTTP library: `http.NewRequest` refuses a method and URL as
`reject` says, and `client.Do` answers each request as `answer` says and
appends it to the world state, which is thus the list of the requests handed
to `client.Do` so far. -/
def recorder {ε : Type} (reject : GoString → GoString → Option ε)
    (answer : http.Request → Except ε http.Response) : HTTP (List http.Request) ε :=
  { reject := reject
    Do := fun req log => (answer req, log ++ [req]) }

/-- The exchange the adapter calls the transport: `http.NewRequest` for the
given method, URL, headers and body, followed by `client.Do`; an error of
either step is the transport's error. -/
def HTTP.exchange {σ ε : Type} (h : HTTP σ ε) (method url : GoString)
    (header : List (GoString × GoString)) (body : Option JSON) (w : σ) :
    Except ε http.Response × σ :=
  match h.reject method url with
  | some err => (.error err, w)
  | none => h.Do { Method := method, URL := url, Header := header, Body := body } w

/-! ## Concrete inputs used to evaluate the model -/

/-- A client bound to the registry of the end-to-end scenario. -/
def registryClient : client :=
  newClient "http://registry.local:8761".toList { Timeout := defaultTimeout }

/-- The service record of the end-to-end scenario. -/
def webService : Service :=
  { ID := "web:1".toList, Name := "web".toList, Port := 8080, IP := "10.0.0.5".toList,
    Tags := ["version|1.2".toList] }

/-- Whether a string holds an ASCII control character (below 0x20, or 0x7f). -/
def hasControl (s : GoString) : Bool :=
  s.any (fun c => c.toNat < 0x20 || c.toNat == 0x7f)

/-- A URL check that refuses, as package `net/url` does, every URL holding an
ASCII control character, and accepts every other URL. -/
def rejectControl (_method url : GoString) : Option GoString :=
  if hasControl url then some "net/url: invalid control character in URL".toList else none

/-- A recording HTTP library that refuses URLs with control characters and
answers every request with the given status. -/
def replying (code : Int) (status : GoString) : HTTP (List http.Request) GoString :=
  recorder rejectControl (fun _ => .ok { StatusCode := code, Status := status })

/-- A recording HTTP library that refuses URLs with control characters and
whose every request fails with the given error. -/
def failing (err : GoString) : HTTP (List http.Request) GoString :=
  recorder rejectControl (fun _ => .error err)

/-! ## Spec-side notions -/

/-- The character map that sends `:` to `-` and keeps every other character. -/
def colonToDash (c : Char) : Char := if c = ':' then '-' else c

/-- The part of a tag before its first `|`, the whole tag when it has none. -/
def tagKey (tag : GoString) : GoString := tag.takeWhile (· ≠ '|')

/-- The part of a tag after its first `|`, empty when it has none. -/
def tagValue (tag : GoString) : GoString := (tag.dropWhile (· ≠ '|')).drop 1

/-! ## Evaluation of the model on concrete inputs -/

theorem Replace_eval :
    strings.Replace "web:1:x".toList ":".toList "-".toList (-1) = "web-1-x".toList ∧
    strings.Replace "aaa".toList "aa".toList "b".toList (-1) = "ba".toList ∧
    strings.Replace "a:b:c".toList ":".toList "-".toList 1 = "a-b:c".toList ∧
    strings.Replace "abc".toList [] "X".toList (-1) = "XaXbXcX".toList ∧
    strings.Replace "abc".toList [] "X".toList 2 = "XaXbc".toList := by
  decide

theorem SplitN_eval :
    strings.SplitN "a|b|c".toList "|".toList 2 = ["a".toList, "b|c".toList] ∧
    strings.SplitN "abc".toList "|".toList 2 = ["abc".toList] ∧
    strings.SplitN [] "|".toList 2 = [[]] ∧
    strings.SplitN "a|b|c".toList "|".toList (-1) = ["a".toList, "b".toList, "c".toList] ∧
    strings.SplitN "abc".toList [] 2 = ["a".toList, "bc".toList] := by
  decide

theorem convertService_eval :
    convertService ⟨"web:1".toList, "web".toList, 8080, "10.0.0.5".toList, ["version|1.2".toList]⟩
      = ⟨"web-1".toList, "web".toList, "web".toList, "10.0.0.5".toList, ⟨8080, true⟩, ⟨0, false⟩,
         [("version".toList, "1.2".toList), ("istio.protocol".toList, "http".toList)]⟩ := by
  decide

theorem formatInt_eval :
    json.formatInt 8080 = "8080".toList ∧ json.formatInt (-17) = "-17".toList ∧
    json.formatInt 0 = "0".toList := by
  decide

theorem marshalMetadata_eval :
    json.marshalMetadata
        [("version".toList, "1.2".toList), ("istio.protocol".toList, "http".toList)]
      = .object [("istio.protocol".toList, .string "http".toList),
                 ("version".toList, .string "1.2".toList)] := by
  rfl

/-! ## Lemmas on the string functions and the metadata map -/

theorem replaceLoop_single (a b : Char) (s : GoString) (n : Nat) (hn : s.length < n) :
    strings.replaceLoop [a] [b] s 0 n = s.map (fun c => if c = a then b else c) := by
  induction s generalizing n with
  | nil => simp [strings.replaceLoop]
  | cons c cs ih =>
    obtain ⟨m, rfl⟩ : ∃ m, n = m + 1 := ⟨n - 1, by simp at hn; omega⟩
    simp only [List.length_cons] at hn
    by_cases hc : c = a
    · subst hc
      simp [strings.replaceLoop, List.isPrefixOf, ih m (by omega)]
    · have hc2 : ¬ a = c := fun h => hc h.symm
      simp [strings.replaceLoop, List.isPrefixOf, hc, hc2, ih (m + 1) (by omega)]

theorem Replace_colon (s : GoString) :
    strings.Replace s ":".toList "-".toList (-1) = s.map colonToDash := by
  have h := replaceLoop_single ':' '-' s (s.length + 1) (by omega)
  simp [strings.Replace, colonToDash] 
  exact h

theorem Index_bar (s : GoString) :
    strings.Index ['|'] s = if '|' ∈ s then some (tagKey s).length else none := by
  induction s with
  | nil => simp [strings.Index]
  | cons c cs ih =>
    by_cases hc : c = '|'
    · subst hc
      simp [strings.Index, List.isPrefixOf, tagKey]
    · have hc2 : ¬ '|' = c := fun h => hc h.symm
      simp only [strings.Index, List.isPrefixOf, tagKey] at ih ⊢
      by_cases hm : '|' ∈ cs <;> simp [hc, hc2, hm, ih, List.takeWhile]

theorem take_tagKey (s : GoString) : s.take (tagKey s).length = tagKey s := by
  induction s with
  | nil => simp [tagKey]
  | cons c cs ih =>
    by_cases hc : c = '|' <;> simp_all [tagKey, List.takeWhile]

theorem drop_tagKey (s : GoString) : s.drop ((tagKey s).length + 1) = tagValue s := by
  induction s with
  | nil => simp [tagKey, tagValue]
  | cons c cs ih =>
    by_cases hc : c = '|' <;> simp_all [tagKey, tagValue, List.takeWhile, List.dropWhile]

theorem tagKey_of_not_mem (s : GoString) (h : '|' ∉ s) : tagKey s = s ∧ tagValue s = [] := by
  induction s with
  | nil => simp [tagKey, tagValue]
  | cons c cs ih =>
    simp only [List.mem_cons, not_or] at h
    have hc : ¬ c = '|' := fun e => h.1 e.symm
    have := ih h.2
    simp_all [tagKey, tagValue, List.takeWhile, List.dropWhile]

theorem SplitN_bar (tag : GoString) :
    strings.SplitN tag "|".toList 2 = if '|' ∈ tag then [tagKey tag, tagValue tag] else [tag] := by
  have h : strings.SplitN tag "|".toList 2 = strings.splitLoop ['|'] tag 2 := by
    simp [strings.SplitN]
  rw [h]
  simp only [strings.splitLoop, Index_bar]
  by_cases hm : '|' ∈ tag
  · simp [hm, take_tagKey, drop_tagKey, strings.splitLoop]
  · simp [hm]

theorem convertService_tag_eq (md : metadata) (tag : GoString) :
    convertService.tag md tag = md.set (tagKey tag) (tagValue tag) := by
  simp only [convertService.tag, SplitN_bar]
  by_cases hm : '|' ∈ tag
  · simp [hm]
  · simp [hm, tagKey_of_not_mem tag hm]

theorem metadata_get_set (md : metadata) (k v k' : GoString) :
    (md.set k v).get k' = if k' = k then some v else md.get k' := by
  unfold metadata.set metadata.get
  by_cases h : k' = k
  · subst h; simp [List.lookup]
  · have h2 : (k' == k) = false := by simpa using h
    simp only [List.lookup, h2, h, if_false]
    induction md with
    | nil => simp
    | cons e es ih =>
      simp only [ne_eq, decide_not] at ih
      obtain ⟨a, b⟩ := e
      by_cases ha : a = k
      · subst ha
        have : (k' == a) = false := h2
        simp [List.filter, List.lookup, this, ih]
      · by_cases hk : k' = a
        · subst hk
          simp [List.filter, List.lookup, ha]
        · have h3 : (k' == a) = false := by simpa using hk
          simp [List.filter, List.lookup, ha, h3, ih]

theorem foldl_tag_get (tags : List GoString) (md : metadata) (k : GoString) :
    (tags.foldl convertService.tag md).get k =
      match (tags.filter (fun t => tagKey t = k)).getLast? with
      | some t => some (tagValue t)
      | none => md.get k := by
  induction tags using List.reverseRecOn with
  | nil => simp
  | append_singleton l t ih =>
    rw [List.foldl_append, List.filter_append]
    simp only [List.foldl_cons, List.foldl_nil, convertService_tag_eq, metadata_get_set]
    by_cases h : tagKey t = k
    · simp [List.filter, h]
    · have h' : ¬ k = tagKey t := fun e => h e.symm
      simp [List.filter, h, h', ih]

theorem metadata_get_convertService (r : Service) (k : GoString) :
    (convertService r).Metadata.get k =
      match (r.Tags.filter (fun t => tagKey t = k)).getLast? with
      | some t => some (tagValue t)
      | none => if k = "istio.protocol".toList then some "http".toList else none := by
  simp only [convertService, foldl_tag_get, metadata_get_set]
  rfl

theorem ID_convertService (r : Service) : (convertService r).ID = r.ID.map colonToDash := by
  simp only [convertService, Replace_colon]

/-! ## The instance mapper: id and metadata -/

/-- C1: the instance id produced by `convertService` has the length of the
record's id and agrees with it position by position, except that every `:` is
replaced by `-`; hence it contains no `:`, and an id without `:` is returned
unchanged. -/
theorem convertService_id_colons_replaced (r : Service) :
    (convertService r).ID.length = r.ID.length ∧
    (∀ i : Nat, (convertService r).ID.get? i =
        (r.ID.get? i).map (fun c => if c = ':' then '-' else c)) ∧
    ':' ∉ (convertService r).ID ∧
    (':' ∉ r.ID → (convertService r).ID = r.ID) := by
  rw [ID_convertService]
  refine ⟨by simp, ?_, ?_, ?_⟩
  · intro i
    simp only [List.get?_eq_getElem?, List.getElem?_map]
    rfl
  · simp only [List.mem_map, not_exists, not_and]
    intro c _ hc
    unfold colonToDash at hc
    split at hc
    · exact absurd hc (by decide)
    · exact absurd hc (by assumption)
  · generalize r.ID = s
    intro h
    induction s with
    | nil => rfl
    | cons c cs ih =>
      simp only [List.mem_cons, not_or] at h
      have hc : ¬ c = ':' := fun e => h.1 e.symm
      simp only [List.map_cons, colonToDash, hc, if_false, List.cons.injEq, true_and]
      exact ih h.2

theorem convertService_id_colons_replaced_witness :
    ':' ∉ "web1".toList ∧
    (convertService ⟨"web1".toList, "web".toList, 80, "10.0.0.5".toList, []⟩).ID = "web1".toList :=
  ⟨by decide,
   (convertService_id_colons_replaced
      ⟨"web1".toList, "web".toList, 80, "10.0.0.5".toList, []⟩).2.2.2 (by decide)⟩

/-- C2: for every record and key `k`, the metadata built by `convertService`
maps `k` to the value part of the last tag whose key part is `k` when there is
such a tag, otherwise to `http` when `k` is `istio.protocol`, and otherwise
not at all.  In particular `env|prod` gives `env -> prod`, `debug` gives
`debug -> ""` and `istio.protocol|grpc` overrides the seeded default. -/
theorem convertService_metadata_lookup :
    (∀ (r : Service) (k : GoString),
      (convertService r).Metadata.get k =
        match (r.Tags.filter (fun t => tagKey t = k)).getLast? with
        | some t => some (tagValue t)
        | none => if k = "istio.protocol".toList then some "http".toList else none) ∧
    (∀ (id name ip : GoString) (p : Int),
      (convertService ⟨id, name, p, ip, ["env|prod".toList]⟩).Metadata.get "env".toList
        = some "prod".toList ∧
      (convertService ⟨id, name, p, ip, ["debug".toList]⟩).Metadata.get "debug".toList
        = some [] ∧
      (convertService ⟨id, name, p, ip, ["istio.protocol|grpc".toList]⟩).Metadata.get
          "istio.protocol".toList = some "grpc".toList ∧
      (convertService ⟨id, name, p, ip, ["k|a|b".toList, "k|c|d".toList]⟩).Metadata.get
          "k".toList = some "c|d".toList) := by
  refine ⟨metadata_get_convertService, ?_⟩
  intro id name ip p
  simp only [metadata_get_convertService]
  decide

/-- C3 fails as stated: a tag `istio.protocol|grpc` replaces the seeded value,
so the metadata maps `istio.protocol` to `grpc`. -/
theorem istio_protocol_overridden :
    (convertService ⟨"web:1".toList, "web".toList, 8080, "10.0.0.5".toList,
        ["istio.protocol|grpc".toList]⟩).Metadata.get "istio.protocol".toList
      = some "grpc".toList ∧
    (convertService ⟨"web:1".toList, "web".toList, 8080, "10.0.0.5".toList,
        ["istio.protocol|grpc".toList]⟩).Metadata.get "istio.protocol".toList
      ≠ some "http".toList := by
  decide

/-- C3, amended: the metadata produced by `convertService` always contains the
key `istio.protocol`, and its value is `http` whenever no tag of the record has
`istio.protocol` as its key part. -/
theorem istio_protocol_default (r : Service) :
    (∃ v, (convertService r).Metadata.get "istio.protocol".toList = some v) ∧
    ((∀ t ∈ r.Tags, tagKey t ≠ "istio.protocol".toList) →
      (convertService r).Metadata.get "istio.protocol".toList = some "http".toList) := by
  rw [metadata_get_convertService]
  constructor
  · cases (r.Tags.filter (fun t => tagKey t = "istio.protocol".toList)).getLast? with
    | none => exact ⟨_, rfl⟩
    | some t => exact ⟨_, rfl⟩
  · intro h
    have hf : r.Tags.filter (fun t => tagKey t = "istio.protocol".toList) = [] := by
      rw [List.filter_eq_nil_iff]
      intro t ht
      simpa using h t ht
    rw [hf]
    rfl

theorem istio_protocol_default_witness :
    (∀ t ∈ ["env|prod".toList, "debug".toList], tagKey t ≠ "istio.protocol".toList) ∧
    (convertService ⟨"web:1".toList, "web".toList, 8080, "10.0.0.5".toList,
        ["env|prod".toList, "debug".toList]⟩).Metadata.get "istio.protocol".toList
      = some "http".toList :=
  ⟨by decide,
   (istio_protocol_default ⟨"web:1".toList, "web".toList, 8080, "10.0.0.5".toList,
        ["env|prod".toList, "debug".toList]⟩).2 (by decide)⟩

/-! ## The wire client: interpretation of the answer -/

theorem CanonicalMIMEHeaderKey_eval :
    http.CanonicalMIMEHeaderKey "Content-type".toList = "Content-Type".toList ∧
    http.CanonicalMIMEHeaderKey "content-TYPE".toList = "Content-Type".toList ∧
    http.CanonicalMIMEHeaderKey "x-forwarded-for".toList = "X-Forwarded-For".toList ∧
    http.CanonicalMIMEHeaderKey "content type".toList = "content type".toList := by
  decide

theorem register_eq_exchange {σ ε : Type} (h : HTTP σ ε) (a : client) (inst : Instance) (w : σ) :
    a.register h inst w =
      match h.exchange http.MethodPost (a.buildRegisterPath inst.App)
          [("Content-Type".toList, "application/json".toList)] (some (json.Marshal inst)) w with
      | (.error err, w) => (some (.lib err), w)
      | (.ok resp, w) =>
        if resp.StatusCode = 204 then (none, w)
        else (some (.errorf ("unexpected status code ".toList ++ resp.Status)), w) := by
  unfold client.register HTTP.exchange HTTP.NewRequest
  cases hr : h.reject http.MethodPost (a.buildRegisterPath inst.App) with
  | some err => rfl
  | none =>
    simp only [http.Request.setHeader, List.filter_nil, CanonicalMIMEHeaderKey_eval.1]
    rcases hd : h.Do _ w with ⟨res, w2⟩
    cases res with
    | error err => rfl
    | ok resp =>
      by_cases hs : resp.StatusCode = 204 <;> simp [hs, http.StatusNoContent]

theorem heartbeat_eq_exchange {σ ε : Type} (h : HTTP σ ε) (a : client) (app id : GoString)
    (w : σ) :
    a.heartbeat h app id w =
      match h.exchange http.MethodPut (a.buildInstancePath app id) [] none w with
      | (.error err, w) => (some (.lib err), w)
      | (.ok resp, w) =>
        if resp.StatusCode = 200 then (none, w)
        else (some (.errorf ("unexpected status code ".toList ++ resp.Status)), w) := by
  unfold client.heartbeat HTTP.exchange HTTP.NewRequest
  cases hr : h.reject http.MethodPut (a.buildInstancePath app id) with
  | some err => rfl
  | none =>
    simp only []
    rcases hd : h.Do _ w with ⟨res, w2⟩
    cases res with
    | error err => rfl
    | ok resp =>
      by_cases hs : resp.StatusCode = 200 <;> simp [hs, http.StatusOK]

theorem deregister_eq_exchange {σ ε : Type} (h : HTTP σ ε) (a : client) (app id : GoString)
    (w : σ) :
    a.deregister h app id w =
      match h.exchange http.MethodDelete (a.buildInstancePath app id) [] none w with
      | (.error err, w) => (some (.lib err), w)
      | (.ok resp, w) =>
        if resp.StatusCode = 200 then (none, w)
        else (some (.errorf
          ("failed to unregister ".toList ++ id ++ ", got ".toList ++ resp.Status)), w) := by
  unfold client.deregister HTTP.exchange HTTP.NewRequest
  cases hr : h.reject http.MethodDelete (a.buildInstancePath app id) with
  | some err => rfl
  | none =>
    simp only []
    rcases hd : h.Do _ w with ⟨res, w2⟩
    cases res with
    | error err => rfl
    | ok resp =>
      by_cases hs : resp.StatusCode = 200 <;> simp [hs, http.StatusOK]

/-- C4: with the transport the exchange of `http.NewRequest` and `client.Do`,
`client.register` returns no error exactly when the transport answers with a
response of status code 204; for a response with any other status code it
returns the error `unexpected status code ` followed by the status text; and
when the transport fails it returns the transport's error unchanged. -/
theorem register_success_iff_204 {σ ε : Type} (h : HTTP σ ε) (a : client) (inst : Instance)
    (w : σ) :
    ((a.register h inst w).1 = none ↔
      ∃ resp, (h.exchange http.MethodPost (a.buildRegisterPath inst.App)
          [("Content-Type".toList, "application/json".toList)] (some (json.Marshal inst)) w).1
            = .ok resp ∧ resp.StatusCode = 204) ∧
    (∀ resp, (h.exchange http.MethodPost (a.buildRegisterPath inst.App)
          [("Content-Type".toList, "application/json".toList)] (some (json.Marshal inst)) w).1
            = .ok resp → resp.StatusCode ≠ 204 →
      (a.register h inst w).1
        = some (.errorf ("unexpected status code ".toList ++ resp.Status))) ∧
    (∀ err, (h.exchange http.MethodPost (a.buildRegisterPath inst.App)
          [("Content-Type".toList, "application/json".toList)] (some (json.Marshal inst)) w).1
            = .error err →
      (a.register h inst w).1 = some (.lib err)) := by
  rw [register_eq_exchange]
  rcases h.exchange http.MethodPost (a.buildRegisterPath inst.App)
      [("Content-Type".toList, "application/json".toList)] (some (json.Marshal inst)) w
    with ⟨res, w2⟩
  cases res with
  | error err => simp
  | ok resp =>
    by_cases hs : resp.StatusCode = 204
    · simp [hs]
    · simp only [hs, if_false, reduceCtorEq, Except.ok.injEq, false_iff, not_exists, not_and,
        ne_eq, false_implies, implies_true, and_true]
      refine ⟨fun x hx => hx ▸ hs, fun x hx _ => hx ▸ rfl⟩

theorem register_success_iff_204_witness :
    (registryClient.register (replying 204 "204 No Content".toList)
        (convertService webService) []).1 = none ∧
    (registryClient.register (replying 500 "500 Internal Server Error".toList)
        (convertService webService) []).1
      = some (.errorf "unexpected status code 500 Internal Server Error".toList) ∧
    (registryClient.register (failing "connection refused".toList)
        (convertService webService) []).1
      = some (.lib "connection refused".toList) :=
  ⟨(register_success_iff_204 (replying 204 "204 No Content".toList) registryClient
      (convertService webService) []).1.2 ⟨⟨204, "204 No Content".toList⟩, rfl, rfl⟩,
   (register_success_iff_204 (replying 500 "500 Internal Server Error".toList) registryClient
      (convertService webService) []).2.1 ⟨500, "500 Internal Server Error".toList⟩ rfl
      (by decide),
   (register_success_iff_204 (failing "connection refused".toList) registryClient
      (convertService webService) []).2.2 "connection refused".toList rfl⟩

/-- C5: `client.heartbeat` and `client.deregister` each return no error exactly
when the transport answers with a response of status code 200.  A response with
any other status code (404, and 204 as well) yields an error: that of
`heartbeat` reads `unexpected status code ` followed by the status text, that
of `deregister` names the instance id and the status text. -/
theorem heartbeat_deregister_success_iff_200 {σ ε : Type} (h : HTTP σ ε) (a : client)
    (app id : GoString) (w : σ) :
    ((a.heartbeat h app id w).1 = none ↔
      ∃ resp, (h.exchange http.MethodPut (a.buildInstancePath app id) [] none w).1 = .ok resp ∧
        resp.StatusCode = 200) ∧
    (∀ resp, (h.exchange http.MethodPut (a.buildInstancePath app id) [] none w).1 = .ok resp →
      resp.StatusCode ≠ 200 →
      (a.heartbeat h app id w).1
          = some (.errorf ("unexpected status code ".toList ++ resp.Status)) ∧
        resp.Status <:+: "unexpected status code ".toList ++ resp.Status) ∧
    ((a.deregister h app id w).1 = none ↔
      ∃ resp, (h.exchange http.MethodDelete (a.buildInstancePath app id) [] none w).1
          = .ok resp ∧ resp.StatusCode = 200) ∧
    (∀ resp, (h.exchange http.MethodDelete (a.buildInstancePath app id) [] none w).1
          = .ok resp → resp.StatusCode ≠ 200 →
      (a.deregister h app id w).1
          = some (.errorf
              ("failed to unregister ".toList ++ id ++ ", got ".toList ++ resp.Status)) ∧
        id <:+: "failed to unregister ".toList ++ id ++ ", got ".toList ++ resp.Status ∧
        resp.Status <:+:
          "failed to unregister ".toList ++ id ++ ", got ".toList ++ resp.Status) := by
  rw [heartbeat_eq_exchange, deregister_eq_exchange]
  generalize h.exchange http.MethodPut (a.buildInstancePath app id) [] none w = hb
  generalize h.exchange http.MethodDelete (a.buildInstancePath app id) [] none w = dr
  obtain ⟨res, w2⟩ := hb
  obtain ⟨res', w2'⟩ := dr
  refine ⟨?_, ?_, ?_, ?_⟩
  · cases res with
    | error err => simp
    | ok resp => by_cases hs : resp.StatusCode = 200 <;> simp [hs]
  · intro resp hx hs
    cases hx
    exact ⟨by simp [hs], List.suffix_append _ _ |>.isInfix⟩
  · cases res' with
    | error err => simp
    | ok resp => by_cases hs : resp.StatusCode = 200 <;> simp [hs]
  · intro resp hx hs
    cases hx
    refine ⟨by simp [hs], ⟨"failed to unregister ".toList, ", got ".toList ++ resp.Status, ?_⟩,
      List.suffix_append _ _ |>.isInfix⟩
    simp

theorem heartbeat_deregister_success_iff_200_witness :
    (registryClient.heartbeat (replying 200 "200 OK".toList)
        "web".toList "web-1".toList []).1 = none ∧
    (registryClient.heartbeat (replying 404 "404 Not Found".toList)
        "web".toList "web-1".toList []).1
      = some (.errorf "unexpected status code 404 Not Found".toList) ∧
    (registryClient.deregister (replying 200 "200 OK".toList)
        "web".toList "web-1".toList []).1 = none ∧
    (registryClient.deregister (replying 204 "204 No Content".toList)
        "web".toList "web-1".toList []).1
      = some (.errorf "failed to unregister web-1, got 204 No Content".toList) :=
  ⟨(heartbeat_deregister_success_iff_200 (replying 200 "200 OK".toList) registryClient
      "web".toList "web-1".toList []).1.2 ⟨⟨200, "200 OK".toList⟩, rfl, rfl⟩,
   ((heartbeat_deregister_success_iff_200 (replying 404 "404 Not Found".toList) registryClient
      "web".toList "web-1".toList []).2.1 ⟨404, "404 Not Found".toList⟩ rfl (by decide)).1,
   (heartbeat_deregister_success_iff_200 (replying 200 "200 OK".toList) registryClient
      "web".toList "web-1".toList []).2.2.1.2 ⟨⟨200, "200 OK".toList⟩, rfl, rfl⟩,
   ((heartbeat_deregister_success_iff_200 (replying 204 "204 No Content".toList) registryClient
      "web".toList "web-1".toList []).2.2.2 ⟨204, "204 No Content".toList⟩ rfl (by decide)).1⟩

/-! ## The requests the adapter sends -/

theorem register_of_reject {σ ε : Type} (h : HTTP σ ε) (a : client) (inst : Instance) (w : σ)
    (err : ε) (hr : h.reject "POST".toList (a.buildRegisterPath inst.App) = some err) :
    a.register h inst w = (some (.lib err), w) := by
  unfold client.register HTTP.NewRequest
  simp only [http.MethodPost, hr]

theorem register_of_accept {σ ε : Type} (h : HTTP σ ε) (a : client) (inst : Instance) (w : σ)
    (hr : h.reject "POST".toList (a.buildRegisterPath inst.App) = none) :
    (a.register h inst w).2 =
      (h.Do { Method := "POST".toList, URL := a.buildRegisterPath inst.App,
              Header := [("Content-Type".toList, "application/json".toList)],
              Body := some (json.Marshal inst) } w).2 := by
  unfold client.register HTTP.NewRequest
  simp only [http.MethodPost, hr, http.Request.setHeader, List.filter_nil,
    CanonicalMIMEHeaderKey_eval.1]
  generalize h.Do _ w = out
  obtain ⟨res, w2⟩ := out
  cases res with
  | error err => rfl
  | ok resp => simp only []; split <;> rfl

theorem heartbeat_of_reject {σ ε : Type} (h : HTTP σ ε) (a : client) (app id : GoString)
    (w : σ) (err : ε) (hr : h.reject "PUT".toList (a.buildInstancePath app id) = some err) :
    a.heartbeat h app id w = (some (.lib err), w) := by
  unfold client.heartbeat HTTP.NewRequest
  simp only [http.MethodPut, hr]

theorem heartbeat_of_accept {σ ε : Type} (h : HTTP σ ε) (a : client) (app id : GoString)
    (w : σ) (hr : h.reject "PUT".toList (a.buildInstancePath app id) = none) :
    (a.heartbeat h app id w).2 =
      (h.Do { Method := "PUT".toList, URL := a.buildInstancePath app id,
              Header := [], Body := none } w).2 := by
  unfold client.heartbeat HTTP.NewRequest
  simp only [http.MethodPut, hr]
  generalize h.Do _ w = out
  obtain ⟨res, w2⟩ := out
  cases res with
  | error err => rfl
  | ok resp => simp only []; split <;> rfl

theorem deregister_of_reject {σ ε : Type} (h : HTTP σ ε) (a : client) (app id : GoString)
    (w : σ) (err : ε) (hr : h.reject "DELETE".toList (a.buildInstancePath app id) = some err) :
    a.deregister h app id w = (some (.lib err), w) := by
  unfold client.deregister HTTP.NewRequest
  simp only [http.MethodDelete, hr]

theorem deregister_of_accept {σ ε : Type} (h : HTTP σ ε) (a : client) (app id : GoString)
    (w : σ) (hr : h.reject "DELETE".toList (a.buildInstancePath app id) = none) :
    (a.deregister h app id w).2 =
      (h.Do { Method := "DELETE".toList, URL := a.buildInstancePath app id,
              Header := [], Body := none } w).2 := by
  unfold client.deregister HTTP.NewRequest
  simp only [http.MethodDelete, hr]
  generalize h.Do _ w = out
  obtain ⟨res, w2⟩ := out
  cases res with
  | error err => rfl
  | ok resp => simp only []; split <;> rfl

/-- C6 fails as stated: the name of a record goes into the URL string as it
is, and over a library that, like `net/url`, refuses a URL holding a control
character, `Register` for a record named `we\x7fb` returns that refusal and
sends no request at all. -/
theorem register_refused_url_sends_nothing :
    ((eureka.mk registryClient).Register (replying 204 "204 No Content".toList)
        ⟨"web:1".toList, "we\x7fb".toList, 8080, "10.0.0.5".toList, []⟩ []).1
      = some (.lib "net/url: invalid control character in URL".toList) ∧
    ((eureka.mk registryClient).Register (replying 204 "204 No Content".toList)
        ⟨"web:1".toList, "we\x7fb".toList, 8080, "10.0.0.5".toList, []⟩ []).2.map
      (fun req => (req.Method, req.URL)) = [] := by
  decide

/-- C6, amended: for every HTTP library, adapter and record, `Register` hands
`http.NewRequest` the method POST and the URL string made of the base URL,
`/eureka/v2/apps/` and the record's name; `Refresh` hands it PUT and
`Deregister` DELETE with that string followed by `/` and the record's id with
every `:` replaced by `-`.  When `http.NewRequest` refuses, the operation
returns its error and nothing is sent; when it accepts, the request created
from that string, and no other, is handed to `client.Do`.  Over a recording
library the log grows by exactly that request, and for the base
`http://registry.local:8761` and the record named `web` with id `web:1` the
strings are `http://registry.local:8761/eureka/v2/apps/web` and
`http://registry.local:8761/eureka/v2/apps/web/web-1`. -/
theorem adapter_request_urls {σ ε : Type} (h : HTTP σ ε) (e : eureka) (r : Service) (w : σ) :
    (match h.reject "POST".toList (e.client.url ++ "/eureka/v2/apps/".toList ++ r.Name) with
      | some err => e.Register h r w = (some (.lib err), w)
      | none =>
        (e.Register h r w).2 =
          (h.Do { Method := "POST".toList,
                  URL := e.client.url ++ "/eureka/v2/apps/".toList ++ r.Name,
                  Header := [("Content-Type".toList, "application/json".toList)],
                  Body := some (json.Marshal (convertService r)) } w).2) ∧
    (match h.reject "PUT".toList
        (e.client.url ++ "/eureka/v2/apps/".toList ++ r.Name ++ "/".toList
          ++ r.ID.map (fun c => if c = ':' then '-' else c)) with
      | some err => e.Refresh h r w = (some (.lib err), w)
      | none =>
        (e.Refresh h r w).2 =
          (h.Do { Method := "PUT".toList,
                  URL := e.client.url ++ "/eureka/v2/apps/".toList ++ r.Name ++ "/".toList
                    ++ r.ID.map (fun c => if c = ':' then '-' else c),
                  Header := [], Body := none } w).2) ∧
    (match h.reject "DELETE".toList
        (e.client.url ++ "/eureka/v2/apps/".toList ++ r.Name ++ "/".toList
          ++ r.ID.map (fun c => if c = ':' then '-' else c)) with
      | some err => e.Deregister h r w = (some (.lib err), w)
      | none =>
        (e.Deregister h r w).2 =
          (h.Do { Method := "DELETE".toList,
                  URL := e.client.url ++ "/eureka/v2/apps/".toList ++ r.Name ++ "/".toList
                    ++ r.ID.map (fun c => if c = ':' then '-' else c),
                  Header := [], Body := none } w).2) ∧
    e.client.buildInstancePath (convertService r).App (convertService r).ID =
      e.client.buildRegisterPath (convertService r).App ++ "/".toList
        ++ r.ID.map (fun c => if c = ':' then '-' else c) ∧
    (∀ (reject : GoString → GoString → Option ε)
        (answer : http.Request → Except ε http.Response) (log : List http.Request),
      (e.Register (recorder reject answer) r log).2 =
        log ++ (match reject "POST".toList
            (e.client.url ++ "/eureka/v2/apps/".toList ++ r.Name) with
          | some _ => []
          | none =>
            [{ Method := "POST".toList,
               URL := e.client.url ++ "/eureka/v2/apps/".toList ++ r.Name,
               Header := [("Content-Type".toList, "application/json".toList)],
               Body := some (json.Marshal (convertService r)) }]) ∧
      (e.Refresh (recorder reject answer) r log).2 =
        log ++ (match reject "PUT".toList
            (e.client.url ++ "/eureka/v2/apps/".toList ++ r.Name ++ "/".toList
              ++ r.ID.map (fun c => if c = ':' then '-' else c)) with
          | some _ => []
          | none =>
            [{ Method := "PUT".toList,
               URL := e.client.url ++ "/eureka/v2/apps/".toList ++ r.Name ++ "/".toList
                 ++ r.ID.map (fun c => if c = ':' then '-' else c),
               Header := [], Body := none }]) ∧
      (e.Deregister (recorder reject answer) r log).2 =
        log ++ (match reject "DELETE".toList
            (e.client.url ++ "/eureka/v2/apps/".toList ++ r.Name ++ "/".toList
              ++ r.ID.map (fun c => if c = ':' then '-' else c)) with
          | some _ => []
          | none =>
            [{ Method := "DELETE".toList,
               URL := e.client.url ++ "/eureka/v2/apps/".toList ++ r.Name ++ "/".toList
                 ++ r.ID.map (fun c => if c = ':' then '-' else c),
               Header := [], Body := none }])) ∧
    ((eureka.mk registryClient).Register (replying 204 "204 No Content".toList)
        webService []).2.map (fun req => (req.Method, req.URL))
      = [("POST".toList, "http://registry.local:8761/eureka/v2/apps/web".toList)] ∧
    ((eureka.mk registryClient).Refresh (replying 200 "200 OK".toList)
        webService []).2.map (fun req => (req.Method, req.URL))
      = [("PUT".toList, "http://registry.local:8761/eureka/v2/apps/web/web-1".toList)] ∧
    ((eureka.mk registryClient).Deregister (replying 200 "200 OK".toList)
        webService []).2.map (fun req => (req.Method, req.URL))
      = [("DELETE".toList, "http://registry.local:8761/eureka/v2/apps/web/web-1".toList)] := by
  have hid : (convertService r).ID = r.ID.map (fun c => if c = ':' then '-' else c) :=
    ID_convertService r
  have hput : ∀ {σ ε : Type} (h : HTTP σ ε) (w : σ),
      e.Refresh h r w = e.client.heartbeat h r.Name
        (r.ID.map (fun c => if c = ':' then '-' else c)) w := by
    intro σ ε h w
    simp only [eureka.Refresh, hid]
    rfl
  have hdel : ∀ {σ ε : Type} (h : HTTP σ ε) (w : σ),
      e.Deregister h r w = e.client.deregister h r.Name
        (r.ID.map (fun c => if c = ':' then '-' else c)) w := by
    intro σ ε h w
    simp only [eureka.Deregister, hid]
    rfl
  refine ⟨?_, ?_, ?_, ?_, fun reject answer log => ⟨?_, ?_, ?_⟩,
    by decide, by decide, by decide⟩
  · split
    · next err hr => exact register_of_reject h e.client (convertService r) w err hr
    · next hr => exact register_of_accept h e.client (convertService r) w hr
  · rw [hput]
    split
    · next err hr => exact heartbeat_of_reject h e.client _ _ w err hr
    · next hr => exact heartbeat_of_accept h e.client _ _ w hr
  · rw [hdel]
    split
    · next err hr => exact deregister_of_reject h e.client _ _ w err hr
    · next hr => exact deregister_of_accept h e.client _ _ w hr
  · rw [hid]
    rfl
  · split
    · next err hr =>
      have hx := register_of_reject (recorder reject answer) e.client (convertService r) log
        err hr
      simp only [eureka.Register, hx, List.append_nil]
    · next hr =>
      exact register_of_accept (recorder reject answer) e.client (convertService r) log hr
  · rw [hput]
    split
    · next err hr =>
      simp only [heartbeat_of_reject (recorder reject answer) e.client _ _ log err hr,
        List.append_nil]
    · next hr => exact heartbeat_of_accept (recorder reject answer) e.client _ _ log hr
  · rw [hdel]
    split
    · next err hr =>
      simp only [deregister_of_reject (recorder reject answer) e.client _ _ log err hr,
        List.append_nil]
    · next hr => exact deregister_of_accept (recorder reject answer) e.client _ _ log hr

/-! ## The JSON body of a registration -/

theorem lookup_map_value {β γ : Type} (f : β → γ) (l : List (GoString × β)) (k : GoString) :
    (l.map (fun e => (e.1, f e.2))).lookup k = (l.lookup k).map f := by
  induction l with
  | nil => rfl
  | cons e es ih =>
    obtain ⟨a, b⟩ := e
    by_cases h : k = a
    · subst h; simp [List.lookup]
    · have h2 : (k == a) = false := by simpa using h
      simp [List.lookup, h2, ih]

theorem lookup_eq_some_iff_mem {β : Type} (l : List (GoString × β))
    (nd : (l.map Prod.fst).Nodup) (k : GoString) (v : β) :
    l.lookup k = some v ↔ (k, v) ∈ l := by
  induction l with
  | nil => simp
  | cons e es ih =>
    obtain ⟨a, b⟩ := e
    simp only [List.map_cons, List.nodup_cons, List.mem_map, not_exists, not_and] at nd
    by_cases h : k = a
    · subst h
      have hno : (k, v) ∉ es := fun hm => nd.1 (k, v) hm rfl
      simp [List.lookup, hno, eq_comm]
    · have h2 : (k == a) = false := by simpa using h
      simp [List.lookup, h2, h, ih nd.2]

theorem lookup_perm {β : Type} (l₁ l₂ : List (GoString × β)) (p : l₁.Perm l₂)
    (nd : (l₁.map Prod.fst).Nodup) (k : GoString) : l₁.lookup k = l₂.lookup k := by
  have nd2 : (l₂.map Prod.fst).Nodup := (p.map Prod.fst).nodup_iff.mp nd
  apply Option.ext
  intro v
  simp only [Option.mem_def]
  rw [lookup_eq_some_iff_mem l₁ nd, lookup_eq_some_iff_mem l₂ nd2]
  exact p.mem_iff

theorem nodup_keys_set (md : metadata) (k v : GoString) (nd : (md.map Prod.fst).Nodup) :
    ((md.set k v).map Prod.fst).Nodup := by
  unfold metadata.set
  simp only [List.map_cons, List.nodup_cons, List.mem_map, List.mem_filter, not_exists, not_and]
  constructor
  · rintro ⟨a, b⟩ ⟨_, hne⟩ heq
    simp at hne
    exact hne heq
  · exact List.Nodup.sublist ((List.filter_sublist md).map Prod.fst) nd

theorem nodup_keys_foldl (tags : List GoString) (md : metadata)
    (nd : (md.map Prod.fst).Nodup) :
    ((tags.foldl convertService.tag md).map Prod.fst).Nodup := by
  induction tags generalizing md with
  | nil => exact nd
  | cons t ts ih =>
    simp only [List.foldl_cons]
    apply ih
    rw [convertService_tag_eq]
    exact nodup_keys_set md _ _ nd

theorem nodup_keys_convertService (r : Service) :
    ((convertService r).Metadata.map Prod.fst).Nodup := by
  simp only [convertService]
  apply nodup_keys_foldl
  exact nodup_keys_set [] _ _ (by simp)

theorem member_marshalMetadata (md : metadata) (nd : (md.map Prod.fst).Nodup) (k : GoString) :
    (json.marshalMetadata md).member k = (md.get k).map JSON.string := by
  simp only [json.marshalMetadata, JSON.member, metadata.get]
  rw [lookup_map_value JSON.string]
  congr 1
  exact (lookup_perm md _ (List.perm_insertionSort _ md).symm nd k).symm

theorem Metadata_convertService_ne_nil (r : Service) : (convertService r).Metadata ≠ [] := by
  intro h
  have h1 := (metadata_get_convertService r "istio.protocol".toList)
  rw [h] at h1
  cases hl : (r.Tags.filter (fun t => tagKey t = "istio.protocol".toList)).getLast? with
  | none => rw [hl] at h1; simp [metadata.get] at h1
  | some t => rw [hl] at h1; simp [metadata.get] at h1

theorem Marshal_webService :
    json.Marshal (convertService webService) =
      .object [("instance".toList, .object [
        ("instanceId".toList, .string "web-1".toList),
        ("hostName".toList, .string "web".toList),
        ("app".toList, .string "web".toList),
        ("ipAddr".toList, .string "10.0.0.5".toList),
        ("port".toList, .object [("$".toList, .string "8080".toList),
                                 ("@enabled".toList, .string "true".toList)]),
        ("securePort".toList, .object [("$".toList, .string "0".toList),
                                       ("@enabled".toList, .string "false".toList)]),
        ("metadata".toList, .object [("istio.protocol".toList, .string "http".toList),
                                     ("version".toList, .string "1.2".toList)])])] := by
  rfl

/-- C7 fails as stated: `instanceId` carries `omitempty`, so for a record whose
id is empty the instance object sent by `Register` has no member
`instanceId`. -/
theorem register_body_empty_id :
    ((eureka.mk registryClient).Register (replying 204 "204 No Content".toList)
        ⟨[], "web".toList, 8080, "10.0.0.5".toList, []⟩ []).2.map
      (fun req => ((req.Body.bind (JSON.member "instance".toList)).map JSON.keys,
        (req.Body.bind (JSON.member "instance".toList)).bind
          (JSON.member "instanceId".toList) |>.isSome))
    = [(some ["hostName".toList, "app".toList, "ipAddr".toList, "port".toList,
              "securePort".toList, "metadata".toList], false)] := by
  decide

/-- C7, amended: for every service record and every HTTP library, the body of
the request that `Register` creates, and hands to `client.Do` when
`http.NewRequest` accepts the URL, is a JSON object with the single member
`instance`.  Its value is an object in which `hostName` and `app` are the
record's name, `ipAddr` is the record's ip, `port` is the object with the two
members `$` and `@enabled`, both JSON strings (the decimal rendering of the
record's port, and `true`), and `metadata` is the object that maps each key of
the instance's metadata to its value as a JSON string; the member `instanceId`
is the id with `:` mapped to `-` when the record's id is not empty, and is
absent when the id is empty. -/
theorem register_body_shape (r : Service) :
    ∃ inst md : JSON,
      (∀ (σ ε : Type) (h : HTTP σ ε) (e : eureka) (w : σ),
        match h.reject "POST".toList (e.client.url ++ "/eureka/v2/apps/".toList ++ r.Name) with
        | some err => e.Register h r w = (some (.lib err), w)
        | none =>
          (e.Register h r w).2 =
            (h.Do { Method := "POST".toList,
                    URL := e.client.url ++ "/eureka/v2/apps/".toList ++ r.Name,
                    Header := [("Content-Type".toList, "application/json".toList)],
                    Body := some (.object [("instance".toList, inst)]) } w).2) ∧
      inst.member "instanceId".toList
        = (if r.ID = [] then none
           else some (.string (r.ID.map (fun c => if c = ':' then '-' else c)))) ∧
      inst.member "hostName".toList = some (.string r.Name) ∧
      inst.member "app".toList = some (.string r.Name) ∧
      inst.member "ipAddr".toList = some (.string r.IP) ∧
      inst.member "port".toList
        = some (.object [("$".toList, .string (json.formatInt r.Port)),
                         ("@enabled".toList, .string "true".toList)]) ∧
      inst.member "metadata".toList = some md ∧
      ∀ k, md.member k = ((convertService r).Metadata.get k).map JSON.string := by
  have hmd := Metadata_convertService_ne_nil r
  have hid : (convertService r).ID = r.ID.map colonToDash := ID_convertService r
  have hnil : (convertService r).ID = [] ↔ r.ID = [] := by
    rw [hid]
    exact List.map_eq_nil_iff
  refine ⟨json.marshalInstance (convertService r),
    json.marshalMetadata (convertService r).Metadata, ?_, ?_, ?_, ?_, ?_, ?_, ?_,
    member_marshalMetadata _ (nodup_keys_convertService r)⟩
  · intro σ ε h e w
    split
    · next err hr => exact register_of_reject h e.client (convertService r) w err hr
    · next hr => exact register_of_accept h e.client (convertService r) w hr
  · show _ = (if r.ID = [] then none else some (JSON.string (r.ID.map colonToDash)))
    rw [← hid]
    by_cases he : r.ID = []
    · simp only [json.marshalInstance, JSON.member, if_pos he, if_pos (hnil.mpr he),
        if_neg hmd]
      rfl
    · simp only [json.marshalInstance, JSON.member, if_neg he, if_neg (mt hnil.mp he)]
      rfl
  all_goals
    by_cases he : (convertService r).ID = []
    · simp only [json.marshalInstance, JSON.member, if_pos he, if_neg hmd]
      rfl
    · simp only [json.marshalInstance, JSON.member, if_neg he, if_neg hmd]
      rfl

/-! ## Construction -/

/-- C8: `factory.New` builds the client's base URL from a copy of the URI whose
scheme is `http` when the given scheme is `eureka`, `https` when it is
`eureka-tls` and the given scheme otherwise, every other component being that
of the given URI; the URI value of the caller is left unchanged. -/
theorem factory_New_rewrites_scheme (render : url.URL → GoString) (uri : url.URL) :
    (factory.New render uri).1.client.url =
      render { uri with
        Scheme :=
          if uri.Scheme = "eureka".toList then "http".toList
          else if uri.Scheme = "eureka-tls".toList then "https".toList
          else uri.Scheme } ∧
    (factory.New render uri).2 = uri := by
  unfold factory.New
  refine ⟨?_, rfl⟩
  simp only [newClient, eurekaScheme, eurekaTLSScheme]
  split_ifs <;> rfl

/-! ## URL safety of the instance id -/

/-- C9 at a failing input: an id holding `/`, `?`, `#`, `%` and a blank is
returned as it is, and the instance URL built from it has these characters
after the application's path segment. -/
theorem id_keeps_url_delimiters :
    (convertService ⟨"a/b?c#d%e f".toList, "web".toList, 8080, "10.0.0.5".toList, []⟩).ID
      = "a/b?c#d%e f".toList ∧
    registryClient.buildInstancePath
      (convertService ⟨"a/b?c#d%e f".toList, "web".toList, 8080, "10.0.0.5".toList, []⟩).App
      (convertService ⟨"a/b?c#d%e f".toList, "web".toList, 8080, "10.0.0.5".toList, []⟩).ID
      = "http://registry.local:8761/eureka/v2/apps/web/a/b?c#d%e f".toList := by
  decide

/-- C10: the id mapping of `convertService` is idempotent, and it is not
injective: the records with ids `web:1` and `web-1` and the same other fields
get the same instance id, so `Refresh` and `Deregister` address the same
instance URL for both and behave alike. -/
theorem id_mapping_idempotent_not_injective :
    (∀ r : Service,
      strings.Replace (convertService r).ID ":".toList "-".toList (-1) = (convertService r).ID ∧
      (convertService { r with ID := (convertService r).ID }).ID = (convertService r).ID) ∧
    (∀ r : Service,
      ({ r with ID := "web:1".toList } : Service).Name
        = ({ r with ID := "web-1".toList } : Service).Name ∧
      ({ r with ID := "web:1".toList } : Service).ID
        ≠ ({ r with ID := "web-1".toList } : Service).ID ∧
      (convertService { r with ID := "web:1".toList }).ID
        = (convertService { r with ID := "web-1".toList }).ID ∧
      (∀ e : eureka,
        e.client.buildInstancePath (convertService { r with ID := "web:1".toList }).App
            (convertService { r with ID := "web:1".toList }).ID
          = e.client.buildInstancePath (convertService { r with ID := "web-1".toList }).App
            (convertService { r with ID := "web-1".toList }).ID) ∧
      (∀ (σ ε : Type) (h : HTTP σ ε) (e : eureka) (w : σ),
        e.Refresh h { r with ID := "web:1".toList } w
          = e.Refresh h { r with ID := "web-1".toList } w ∧
        e.Deregister h { r with ID := "web:1".toList } w
          = e.Deregister h { r with ID := "web-1".toList } w)) := by
  have hsame : ∀ r : Service, (convertService { r with ID := "web:1".toList }).ID
      = (convertService { r with ID := "web-1".toList }).ID := by
    intro r
    simp only [ID_convertService]
    decide
  have happ : ∀ (r : Service) (s : GoString), (convertService { r with ID := s }).App = r.Name :=
    fun _ _ => rfl
  constructor
  · intro r
    have hidem : ∀ s : GoString, (s.map colonToDash).map colonToDash = s.map colonToDash := by
      intro s
      simp only [List.map_map]
      apply List.map_congr_left
      intro c _
      simp only [Function.comp, colonToDash]
      split <;> simp_all
    constructor
    · rw [Replace_colon, ID_convertService, hidem]
    · simp only [ID_convertService, hidem]
  · intro r
    refine ⟨rfl, by simp, hsame r, fun e => ?_, fun σ ε h e w => ?_⟩
    · rw [hsame r, happ, happ]
    · simp only [eureka.Refresh, eureka.Deregister, hsame r, happ, and_self]
end Eureka
